import Mathlib

/-!
Verification development for the puzzle-js template engine
(src/src/template.ts: class `Template`, class `FragmentStorefront`).

The TypeScript source is shallowly embedded: string manipulation is done on
`String` / `List Char`, the JavaScript `String.prototype.replace` is modelled
both with a string replacement (which expands dollar patterns such as `$&`)
and with a function replacer (which inserts the replacement literally),
upstream fetches are passed in as explicit `Except` results, and the
streaming part of the request handler is a small-step transition relation.
-/

/-- Single-quote character, used when assembling the script strings the engine
emits (the source builds them with template literals containing quotes). -/
def sQuote : String := String.mk [Char.ofNat 39]

/-- Backtick character. -/
def btick : Char := Char.ofNat 96

/-- Modelled from the spec: the `CONTENT_NOT_FOUND_ERROR` constant imported by
template.ts from config.ts, which is not part of src.  The claims depend only
on it being one fixed literal text substituted for missing partials. -/
def CONTENT_NOT_FOUND_ERROR : String :=
  "<script>console.log(" ++ sQuote ++ "Fragment Part does not exists" ++ sQuote ++ ")</script>"

/-- Splits `s` around the first occurrence of `pat`, returning the part before
and the part after, or `none` when `pat` does not occur.  This models the
search step of JavaScript `String.prototype.replace` with a string pattern,
which rewrites only the first occurrence. -/
def splitFirst (pat : List Char) : List Char → Option (List Char × List Char)
  | [] => if pat.isEmpty then some ([], []) else none
  | c :: rest =>
    if pat.isPrefixOf (c :: rest) then some ([], (c :: rest).drop pat.length)
    else match splitFirst pat rest with
      | some (pre, post) => some (c :: pre, post)
      | none => none

/-- GetSubstitution from the ECMAScript specification, for a string pattern
(hence no capture groups): expands `$$`, `$&`, the backtick form and the
quote form of the dollar patterns in a string replacement; every other use
of `$` stays literal. -/
def expandDollar (matched pre post : List Char) : List Char → List Char
  | [] => []
  | ['$'] => ['$']
  | '$' :: c :: rest =>
    if c = '$' then '$' :: expandDollar matched pre post rest
    else if c = '&' then matched ++ expandDollar matched pre post rest
    else if c = btick then pre ++ expandDollar matched pre post rest
    else if c = Char.ofNat 39 then post ++ expandDollar matched pre post rest
    else '$' :: expandDollar matched pre post (c :: rest)
  | c :: rest => c :: expandDollar matched pre post rest

/-- JavaScript `s.replace(pat, rep)` with a plain string replacement:
the first occurrence of `pat` is replaced and dollar patterns in `rep`
are expanded. -/
def strReplaceJS (s pat rep : String) : String :=
  match splitFirst pat.data s.data with
  | some (pre, post) => String.mk (pre ++ expandDollar pat.data pre post rep.data ++ post)
  | none => s

/-- JavaScript `s.replace(pat, () => rep)` with a function replacer:
the first occurrence of `pat` is replaced by `rep` inserted literally,
with no dollar-pattern expansion. -/
def strReplaceFn (s pat rep : String) : String :=
  match splitFirst pat.data s.data with
  | some (pre, post) => String.mk (pre ++ rep.data ++ post)
  | none => s

/-- JavaScript truthiness on a possibly-absent string: `undefined`, `null`
and the empty string are falsy. -/
def jsTruthy : Option String → Bool
  | none => false
  | some s => !(s = "")

/-- JavaScript `v || d` for a possibly-absent string `v`. -/
def jsOrString (v : Option String) (d : String) : String :=
  match v with
  | none => d
  | some s => if s = "" then d else s

/-- Property lookup on a JavaScript object modelled as an association list
(used for the `html` map of partials in a fragment response). -/
def lookupStr (m : List (String × String)) (k : String) : Option String :=
  (m.find? (fun kv => kv.1 == k)).map (fun kv => kv.2)

/-! ### Data model (src/src/template.ts enums and interfaces) -/

/-- REPLACE_ITEM_TYPE from enums. -/
inductive REPLACE_ITEM_TYPE where
  | CONTENT
  | CHUNKED_CONTENT
  | PLACEHOLDER
  | MODEL_SCRIPT
deriving DecidableEq

/-- RESOURCE_TYPE from enums. -/
inductive RESOURCE_TYPE where
  | JS
  | CSS
deriving DecidableEq

/-- RESOURCE_LOCATION from enums. -/
inductive RESOURCE_LOCATION where
  | HEAD
  | BODY_START
  | CONTENT_START
  | CONTENT_END
  | BODY_END
deriving DecidableEq

/-- RESOURCE_INJECT_TYPE from enums. -/
inductive RESOURCE_INJECT_TYPE where
  | EXTERNAL
  | INLINE
deriving DecidableEq

/-- IReplaceItem: one sentinel replacement produced at compile time.
The source field `partial` is spelled `part` here. -/
structure IReplaceItem where
  type : REPLACE_ITEM_TYPE
  key : String
  part : String
deriving DecidableEq

/-- One asset exposed by a gateway for a fragment.  `fetched` is the result
of the upstream `getAsset` fetch for this asset (`none` models a failed
fetch, which the source maps to `null`). -/
structure AssetModel where
  name : String
  rtype : RESOURCE_TYPE
  fetched : Option String
deriving DecidableEq

/-- Render configuration of an exposed fragment (IFragmentBFFRender). -/
structure RenderCfg where
  url : String
  placeholder : Bool
  selfReplace : Bool
  static : Bool
deriving DecidableEq

/-- IExposeFragment: the gateway-supplied configuration of a fragment. -/
structure IExposeFragment where
  render : RenderCfg
  assets : List AssetModel
deriving DecidableEq

/-- Raw upstream HTTP response of a fragment content fetch, before
FragmentStorefront.getContent shapes it.  `jsonBody` is the parsed JSON
body (the map of partials). -/
structure RawFetchResponse where
  status : Nat
  headers : List (String × String)
  jsonBody : List (String × String)
deriving DecidableEq

/-- IFragmentContentResponse as actually produced by
FragmentStorefront.getContent (fragment.ts): an object with exactly the
fields `status` and `html`. -/
structure IFragmentContentResponse where
  status : Nat
  html : List (String × String)
deriving DecidableEq

/-- Property access `fragmentContent.model` performed by template.ts
(lines 250 and 380).  getContent returns an object carrying only `status`
and `html`, so this access always yields `undefined`, modelled as `none`. -/
def IFragmentContentResponse.model (_ : IFragmentContentResponse) :
    Option (List (String × String)) := none

/-- Property access `fragmentContent.headers` performed by template.ts
(line 244).  getContent returns an object carrying only `status` and
`html`, so this access always yields `undefined`, modelled as `none`. -/
def IFragmentContentResponse.headers (_ : IFragmentContentResponse) :
    Option (List (String × String)) := none

/-! ### FragmentStorefront (src/src/template.ts lines 787-921, fragment.ts) -/

/-- FRAGMENT_RENDER_MODES.STREAM. -/
def FRAGMENT_RENDER_MODES_STREAM : String := "stream"

/-- Attribute keys deleted from the upstream query in getContent. -/
def reservedQueryKeys : List String := ["from", "name", "partial", "primary", "shouldwait"]

/-- Query-string construction of FragmentStorefront.getContent:
`{...attribs, __renderMode: STREAM}` followed by `delete query.from`,
`delete query.name`, `delete query.partial`, `delete query.primary`,
`delete query.shouldwait`.  The attribute bag and the resulting query are
modelled as partial maps from key to value. -/
def buildContentQuery (attribs : String → Option String) : String → Option String :=
  fun k =>
    if k ∈ reservedQueryKeys then none
    else if k = "__renderMode" then some FRAGMENT_RENDER_MODES_STREAM
    else attribs k

/-- FragmentStorefront.getContent with the upstream fetch passed in as an
`Except` result (`Except.error` models a timeout or transport error).  The
returned Bool records whether an upstream fetch was issued at all.  The
function always resolves to a value: a failed fetch is caught and mapped to
status 500 with an empty html map, it never rejects. -/
def getContent (config : Option IExposeFragment)
    (fetchResult : Except Unit RawFetchResponse) : IFragmentContentResponse × Bool :=
  match config with
  | none => (⟨500, []⟩, false)
  | some _ =>
    match fetchResult with
    | .error _ => (⟨500, []⟩, true)
    | .ok r => (⟨r.status, r.jsonBody⟩, true)

/-- FragmentStorefront.getPlaceholder with the upstream fetch passed in as
an `Except` result.  The returned Bool records whether an upstream fetch was
issued. -/
def getPlaceholder (config : Option IExposeFragment)
    (fetchResult : Except Unit String) : String × Bool :=
  match config with
  | none => ("", false)
  | some cfg =>
    if cfg.render.placeholder = false then ("", false)
    else
      match fetchResult with
      | .error _ => ("", true)
      | .ok html => (html, true)

/-- FragmentStorefront.getAsset: `null` without config, `null` when the
asset is not declared, otherwise the fetch result (`none` on fetch failure). -/
def getAsset (config : Option IExposeFragment) (assetName : String) : Option String :=
  match config with
  | none => none
  | some cfg =>
    match cfg.assets.find? (fun a => a.name == assetName) with
    | none => none
    | some a => a.fetched

/-! ### Template.fragmentModelScript and Template.wrapJsAsset -/

/-- Body accumulated by Template.fragmentModelScript for one page-model key. -/
def modelScriptEntry (fragName : String) (dbg : Bool) (kv : String × String) : String :=
  "window[" ++ sQuote ++ kv.1 ++ sQuote ++ "]=window[" ++ sQuote ++ kv.1 ++ sQuote ++ "]||"
    ++ kv.2 ++ ";"
    ++ (if dbg then
          "PuzzleJs.variables.add(" ++ sQuote ++ fragName ++ sQuote ++ "," ++ sQuote ++ kv.1
            ++ sQuote ++ ");"
        else "")

/-- Template.fragmentModelScript (template.ts lines 265-270).  A missing or
empty page model produces the empty string; `kv.2` stands for the
JSON-serialised model value. -/
def fragmentModelScript (fragName : String) (m : Option (List (String × String)))
    (dbg : Bool) : String :=
  match m with
  | none => ""
  | some l =>
    if l.length = 0 then ""
    else "<script>" ++ l.foldl (fun acc kv => acc ++ modelScriptEntry fragName dbg kv) "" ++ "</script>"

/-- IWrappingJsAsset / IReplaceAssetSet: one JS asset scheduled for
injection.  `executeType` is the already-rendered attribute text. -/
structure IReplaceAssetSet where
  name : String
  link : Option String
  content : Option String
  injectType : RESOURCE_INJECT_TYPE
  location : RESOURCE_LOCATION
  executeType : String
deriving DecidableEq

/-- IReplaceAsset: the per-fragment bundle of JS assets. -/
structure IReplaceAsset where
  fragmentName : String
  replaceItems : List IReplaceAssetSet
deriving DecidableEq

/-- Template.wrapJsAsset (template.ts lines 156-165). -/
def wrapJsAsset (a : IReplaceAssetSet) : String :=
  if a.injectType = RESOURCE_INJECT_TYPE.EXTERNAL ∧ jsTruthy a.link = true then
    "<script puzzle-dependency=\"" ++ a.name ++ "\" src=\"" ++ (a.link.getD "")
      ++ "\" type=\"text/javascript\"" ++ a.executeType ++ "> </script>"
  else if a.injectType = RESOURCE_INJECT_TYPE.INLINE ∧ jsTruthy a.content = true then
    "<script puzzle-dependency=\"" ++ a.name ++ "\" type=\"text/javascript\">"
      ++ (a.content.getD "") ++ "</script>"
  else
    "<!-- Failed to inject asset: " ++ a.name ++ " -->"

/-! ### Template.replaceWaitedFragments (template.ts lines 236-263) -/

/-- One waited IReplaceSet joined with the request-time inputs of its
fragment: the descriptor flags, the gateway configuration and the raw
upstream fetch outcome consumed by `await fragment.getContent(...)`. -/
structure WaitedReplacement where
  name : String
  primary : Bool
  config : Option IExposeFragment
  fetchResult : Except Unit RawFetchResponse
  replaceItems : List IReplaceItem

/-- Text injected for one CONTENT item:
`fragmentContent.html[replaceItem.partial] || CONTENT_NOT_FOUND_ERROR`. -/
def contentInjectText (c : IFragmentContentResponse) (item : IReplaceItem) : String :=
  jsOrString (lookupStr c.html item.part) CONTENT_NOT_FOUND_ERROR

/-- Result of Template.replaceWaitedFragments: the substituted first-flush
template, the response status code and the headers object read off the
primary fragment's content (`none` models the `undefined` read). -/
structure IWaitedResponseFirstFlush where
  template : String
  statusCode : Nat
  headers : Option (List (String × String))

/-- One iteration of the `for (let waitedFragmentReplacement of waitedFragments)`
loop of Template.replaceWaitedFragments: fetch the content, adopt status and
headers when the fragment is primary, substitute the MODEL_SCRIPT sentinel
with a plain string replacement (template.ts line 250) and every CONTENT
sentinel with a function-replacer replacement (line 257). -/
def replaceWaitedStep (dbg : Bool) (acc : IWaitedResponseFirstFlush)
    (w : WaitedReplacement) : IWaitedResponseFirstFlush :=
  let fragmentContent := (getContent w.config w.fetchResult).1
  let statusCode := if w.primary then fragmentContent.status else acc.statusCode
  let headers := if w.primary then fragmentContent.headers else acc.headers
  let t1 :=
    match w.replaceItems.find? (fun i => i.type = REPLACE_ITEM_TYPE.MODEL_SCRIPT) with
    | some mi => strReplaceJS acc.template mi.key (fragmentModelScript w.name fragmentContent.model dbg)
    | none => acc.template
  let t2 := w.replaceItems.foldl
    (fun t item =>
      if item.type = REPLACE_ITEM_TYPE.CONTENT then
        strReplaceFn t item.key (contentInjectText fragmentContent item)
      else t) t1
  ⟨t2, statusCode, headers⟩

/-- Template.replaceWaitedFragments: fold the per-fragment step over the
waited replace sets, starting from status 200 and an empty headers object. -/
def replaceWaitedFragments (dbg : Bool) (ws : List WaitedReplacement)
    (template : String) : IWaitedResponseFirstFlush :=
  ws.foldl (replaceWaitedStep dbg) ⟨template, 200, some []⟩

/-- Follows the spec's words, for comparison with `replaceWaitedStep`:
sentinels are substituted with literal replacement (not regex), for the
MODEL_SCRIPT item as well as for the CONTENT items. -/
def replaceWaitedStepLiteral (dbg : Bool) (acc : IWaitedResponseFirstFlush)
    (w : WaitedReplacement) : IWaitedResponseFirstFlush :=
  let fragmentContent := (getContent w.config w.fetchResult).1
  let statusCode := if w.primary then fragmentContent.status else acc.statusCode
  let headers := if w.primary then fragmentContent.headers else acc.headers
  let t1 :=
    match w.replaceItems.find? (fun i => i.type = REPLACE_ITEM_TYPE.MODEL_SCRIPT) with
    | some mi => strReplaceFn acc.template mi.key (fragmentModelScript w.name fragmentContent.model dbg)
    | none => acc.template
  let t2 := w.replaceItems.foldl
    (fun t item =>
      if item.type = REPLACE_ITEM_TYPE.CONTENT then
        strReplaceFn t item.key (contentInjectText fragmentContent item)
      else t) t1
  ⟨t2, statusCode, headers⟩

/-- Spec-side counterpart of `replaceWaitedFragments`, with fully literal
sentinel substitution. -/
def replaceWaitedFragmentsLiteral (dbg : Bool) (ws : List WaitedReplacement)
    (template : String) : IWaitedResponseFirstFlush :=
  ws.foldl (replaceWaitedStepLiteral dbg) ⟨template, 200, some []⟩

/-- Headers actually applied to the response by the
`for (let prop in waitedReplacement.headers) res.set(prop, ...)` loop of
Template.buildHandler: iterating `undefined` or an empty object sets
nothing. -/
def appliedHeaders : Option (List (String × String)) → List (String × String)
  | none => []
  | some l => l

/-! ### Template.flush (template.ts lines 372-406) and the chunked compile step -/

/-- Sentinel key for a chunked occurrence, built by
Template.replaceChunkedFragmentContainers (template.ts line 465):
`fragment.name + '_' + partial`. -/
def chunkedContentKey (name part : String) : String := name ++ "_" ++ part

/-- One chunked IReplaceSet joined with its fragment descriptor data used by
Template.flush: the fragment name and its optional gateway configuration. -/
structure ChunkedReplacement where
  name : String
  config : Option IExposeFragment
  replaceItems : List IReplaceItem

/-- Value of `chunkedReplacement.fragment.config && config.render.selfReplace`
in Template.flush. -/
def selfReplacingOf (cfg : Option IExposeFragment) : Bool :=
  match cfg with
  | none => false
  | some c => c.render.selfReplace

/-- Mover script streamed after a chunked content division (template.ts
line 391). -/
def moverScript (key : String) : String :=
  "<script>$p(" ++ sQuote ++ "[puzzle-chunk=\"" ++ key ++ "\"]" ++ sQuote ++ ","
    ++ sQuote ++ "[puzzle-chunk-key=\"" ++ key ++ "\"]" ++ sQuote ++ ");</script>"

/-- Opening tag of a streamed chunk content division (template.ts line 389). -/
def chunkedDivOpen (name key : String) : String :=
  "<div style=\"display: none;\" puzzle-fragment=\"" ++ name ++ "\" puzzle-chunk-key=\""
    ++ key ++ "\">"

/-- Debug analytics marker around a flushed chunk. -/
def analyticsMarker (name : String) : String :=
  "<script>PuzzleJs.analytics.fragment(" ++ sQuote ++ name ++ sQuote ++ ")</script>"

/-- Output appended for one replace item inside the
`chunkedReplacement.replaceItems.forEach` loop of Template.flush: for a
CHUNKED_CONTENT item, the hidden content division, followed by the mover
script unless `replaceItem.key === 'main' && selfReplacing`. -/
def flushChunkedItem (name : String) (selfReplacing : Bool)
    (c : IFragmentContentResponse) (item : IReplaceItem) : String :=
  if item.type = REPLACE_ITEM_TYPE.CHUNKED_CONTENT then
    chunkedDivOpen name item.key ++ contentInjectText c item ++ "</div>"
      ++ (if item.key = "main" ∧ selfReplacing = true then "" else moverScript item.key)
  else ""

/-- JS assets of one location wrapped and concatenated, as in the
CONTENT_START / CONTENT_END filters of Template.flush. -/
def assetsAt (fragmentJs : Option IReplaceAsset) (loc : RESOURCE_LOCATION) : String :=
  match fragmentJs with
  | none => ""
  | some js =>
    (js.replaceItems.filter (fun i => i.location = loc)).foldl
      (fun acc i => acc ++ wrapJsAsset i) ""

/-- Template.flush: the full chunk body written for one resolved chunked
fragment response. -/
def flush (jsReplacements : List IReplaceAsset) (cr : ChunkedReplacement) (dbg : Bool)
    (fragmentContent : IFragmentContentResponse) : String :=
  let fragmentJs := jsReplacements.find? (fun j => j.fragmentName == cr.name)
  let selfReplacing := selfReplacingOf cr.config
  let out0 := (if dbg then analyticsMarker cr.name else "")
    ++ fragmentModelScript cr.name fragmentContent.model dbg
    ++ assetsAt fragmentJs RESOURCE_LOCATION.CONTENT_START
  let out1 := cr.replaceItems.foldl
    (fun out item => out ++ flushChunkedItem cr.name selfReplacing fragmentContent item) out0
  out1 ++ assetsAt fragmentJs RESOURCE_LOCATION.CONTENT_END
    ++ (if dbg then analyticsMarker cr.name else "")

/-! ### Template.buildStyleSheets (template.ts lines 637-680) -/

/-- CSS collection loop of Template.buildStyleSheets, exactly as written in
the source: when a fragment has no config, the `return` statement inside
the `for` loop aborts the whole method (`none`); otherwise every truthy CSS
asset content of the fragment is pushed in order. -/
def collectStyleSheets : List (Option IExposeFragment) → List String → Option (List String)
  | [], acc => some acc
  | cfg? :: rest, acc =>
    match cfg? with
    | none => none
    | some cfg =>
      collectStyleSheets rest
        ((cfg.assets.filter (fun a => a.rtype = RESOURCE_TYPE.CSS)).foldl
          (fun l a =>
            match getAsset (some cfg) a.name with
            | some s => if s = "" then l else l ++ [s]
            | none => l) acc)

/-- Modelled from the spec: the stylesheet step is specified to *skip* a
fragment that has no config and continue with the remaining fragments; the
source's early `return` is flagged there as a bug.  Identical to
`collectStyleSheets` except for the configless case. -/
def collectStyleSheetsSkip : List (Option IExposeFragment) → List String → Option (List String)
  | [], acc => some acc
  | cfg? :: rest, acc =>
    match cfg? with
    | none => collectStyleSheetsSkip rest acc
    | some cfg =>
      collectStyleSheetsSkip rest
        ((cfg.assets.filter (fun a => a.rtype = RESOURCE_TYPE.CSS)).foldl
          (fun l a =>
            match getAsset (some cfg) a.name with
            | some s => if s = "" then l else l ++ [s]
            | none => l) acc)

/-! ### Template.getDependencies (template.ts lines 73-111) -/

/-- Role flags of a FragmentStorefront instance, both initialised to false
by the constructor. -/
structure FragFlags where
  primary : Bool
  shouldWait : Bool
deriving DecidableEq

/-- One `<fragment>` element of the template as seen by getDependencies:
its name and gateway attributes, whether a `primary` attribute and a
`shouldwait` attribute are present, and whether the parent element is
`<head>`. -/
structure FragEl where
  name : String
  fromGw : String
  hasPrimary : Bool
  hasShouldwait : Bool
  parentIsHead : Bool
deriving DecidableEq

/-- State threaded through the reduce of getDependencies: the
`this.fragments` map (in insertion order) and the local `primaryName`
variable (`none` models its initial `undefined`). -/
structure DepState where
  frags : List (String × FragFlags)
  primaryName : Option String
deriving DecidableEq

/-- Error thrown by getDependencies. -/
inductive DepError where
  | MULTIPLE_PRIMARY_FRAGMENTS
deriving DecidableEq

/-- Lookup in the fragments map. -/
def lookupFlags : List (String × FragFlags) → String → Option FragFlags
  | [], _ => none
  | (k, v) :: rest, key => if k = key then some v else lookupFlags rest key

/-- Read of `this.fragments[name]`; after `ensureFrag` the entry always
exists, the default only covers the lookup type. -/
def getFrag (l : List (String × FragFlags)) (k : String) : FragFlags :=
  (lookupFlags l k).getD ⟨false, false⟩

/-- Update of `this.fragments[name]`. -/
def setFrag : List (String × FragFlags) → String → FragFlags → List (String × FragFlags)
  | [], k, v => [(k, v)]
  | (k', v') :: rest, k, v =>
    if k' = k then (k, v) :: rest else (k', v') :: setFrag rest k v

/-- Creation of `new FragmentStorefront(name, from)` when the name is first
seen (template.ts lines 84-90). -/
def ensureFrag (l : List (String × FragFlags)) (k : String) : List (String × FragFlags) :=
  if (lookupFlags l k).isSome then l else l ++ [(k, ⟨false, false⟩)]

/-- One iteration of the reduce inside getDependencies, for one fragment
element: create the descriptor if the name is new; if the descriptor is not
yet primary and the element carries `primary`, throw
MULTIPLE_PRIMARY_FRAGMENTS when a different name already claimed primary,
otherwise promote the descriptor (primary and shouldWait become true) and
record the name; finally, if the descriptor's shouldWait is still false,
set it from the `shouldwait` attribute or a `<head>` parent. -/
def depStep (st : DepState) (el : FragEl) : Except DepError DepState :=
  let frags0 := ensureFrag st.frags el.name
  let cur := getFrag frags0 el.name
  if cur.primary = false ∧ el.hasPrimary = true then
    if st.primaryName ≠ none ∧ st.primaryName ≠ some el.name then
      Except.error DepError.MULTIPLE_PRIMARY_FRAGMENTS
    else
      Except.ok ⟨setFrag frags0 el.name ⟨true, true⟩, some el.name⟩
  else
    Except.ok
      ⟨if cur.shouldWait = false then
          setFrag frags0 el.name ⟨cur.primary, el.hasShouldwait || el.parentIsHead⟩
        else frags0,
        st.primaryName⟩

/-- The reduce of getDependencies from an arbitrary starting state. -/
def getDependenciesFrom (st : DepState) : List FragEl → Except DepError DepState
  | [] => Except.ok st
  | el :: rest =>
    match depStep st el with
    | Except.error e => Except.error e
    | Except.ok st' => getDependenciesFrom st' rest

/-- Template.getDependencies over the fragment elements of one template, in
document order, starting from a fresh Template instance (empty fragments
map, `primaryName` undefined). -/
def getDependencies (els : List FragEl) : Except DepError DepState :=
  getDependenciesFrom ⟨[], none⟩ els

/-! ### Mode B streaming handler (template.ts lines 307-360) -/

/-- One write issued on the response object in Mode B. -/
inductive StreamWrite where
  | firstFlush : String → StreamWrite
  | chunk : Nat → String → StreamWrite
  | closing : String → StreamWrite
deriving DecidableEq

/-- State of one Mode B request after the first flush was written:
the chunked fetches whose flush callback has not run yet (by index into
`chunkedFragmentReplacements`), the writes issued so far in order, and
whether `res.end` has run. -/
structure ModeBState where
  pending : List Nat
  writes : List StreamWrite
  closed : Bool
deriving DecidableEq

/-- State right after the non-301 branch of the Mode B handler wrote the
waited-substituted shell: every chunked fetch is pending, the shell is the
only write, the stream is open.  The `.then(this.flush(...))` callbacks are
attached at this point, after the first-flush write, so no chunk can have
been written earlier. -/
def modeBInit (idx : List Nat) (shell : String) : ModeBState :=
  ⟨idx, [StreamWrite.firstFlush shell], false⟩

/-- Event-loop transitions of the Mode B handler.  `complete i` is the
flush callback of chunked fetch `i` running (`res.write` of its chunk
body); it can fire in any order, once per fetch, only while the stream is
open.  `close` is the continuation of `await Promise.all(waitedPromises)`:
it can only run when every chunked fetch has completed — and each fetch's
flush callback was attached before `Promise.all` subscribed, so it has
already written its chunk — and it writes the closing
`</body></html>` chunk via `res.end`. -/
inductive ModeBStep (chunkOut : Nat → String) (closingStr : String) :
    ModeBState → ModeBState → Prop where
  | complete (i : Nat) (st : ModeBState) (hi : i ∈ st.pending) (hc : st.closed = false) :
      ModeBStep chunkOut closingStr st
        ⟨st.pending.erase i, st.writes ++ [StreamWrite.chunk i (chunkOut i)], false⟩
  | close (st : ModeBState) (hp : st.pending = []) (hc : st.closed = false) :
      ModeBStep chunkOut closingStr st
        ⟨[], st.writes ++ [StreamWrite.closing closingStr], true⟩

/-- Reachability of a Mode B state from another under any interleaving of
fetch completions. -/
def ModeBReach (chunkOut : Nat → String) (closingStr : String) :
    ModeBState → ModeBState → Prop :=
  Relation.ReflTransGen (ModeBStep chunkOut closingStr)

/-! ### Helper lemmas -/

/-- Dollar expansion of the empty replacement string is empty, so a plain
string replacement with an empty replacement behaves like a function
replacer. -/
theorem strReplaceJS_empty_rep (s pat : String) :
    strReplaceJS s pat "" = strReplaceFn s pat "" := by
  unfold strReplaceJS strReplaceFn
  have hd : ("" : String).data = [] := rfl
  rw [hd]
  cases h : splitFirst pat.data s.data with
  | none => rfl
  | some pr =>
    obtain ⟨pre, post⟩ := pr
    simp only [expandDollar]

/-- A chunked sentinel key always contains an underscore, hence is never the
string `main`. -/
theorem chunkedContentKey_ne_main (n p : String) : chunkedContentKey n p ≠ "main" := by
  intro h
  have hd : ('_' : Char) ∈ (chunkedContentKey n p).data := by
    unfold chunkedContentKey
    rw [String.data_append, String.data_append]
    have hu : ('_' : Char) ∈ ("_" : String).data := by decide
    exact List.mem_append_left _ (List.mem_append_right _ hu)
  rw [h] at hd
  exact absurd hd (by decide)

/-! ### Claim C1 -/

/-- Concrete chunked replace set for a selfReplace fragment: fragment `f`,
`config.render.selfReplace = true`, one CHUNKED_CONTENT item for the `main`
partial with the compiler-built key `f_main`. -/
def c1Replacement : ChunkedReplacement :=
  ⟨"f", some ⟨⟨"/", false, true, false⟩, []⟩,
    [⟨REPLACE_ITEM_TYPE.CHUNKED_CONTENT, chunkedContentKey "f" "main", "main"⟩]⟩

/-- C1: the claim states that the mover script is omitted for the `main`
partial of a selfReplace fragment.  The source compares `replaceItem.key`
— which is always `name + '_' + partial` and therefore never the string
`main` — against `'main'`, so the guard is dead code and the mover script
is emitted after every CHUNKED_CONTENT division, selfReplace or not.
First conjunct: for every compiler-built key, the flushed piece ends with
the mover script whatever `selfReplacing` is.  Second conjunct: the full
flush of the selfReplace `main` fragment above contains the mover script
the claim says must be absent. -/
theorem C1_flush_mover_never_omitted :
    (∀ (n p name : String) (sr : Bool) (c : IFragmentContentResponse),
      flushChunkedItem name sr c ⟨REPLACE_ITEM_TYPE.CHUNKED_CONTENT, chunkedContentKey n p, p⟩
        = chunkedDivOpen name (chunkedContentKey n p)
          ++ contentInjectText c ⟨REPLACE_ITEM_TYPE.CHUNKED_CONTENT, chunkedContentKey n p, p⟩
          ++ "</div>" ++ moverScript (chunkedContentKey n p))
    ∧ flush [] c1Replacement false ⟨200, [("main", "<p>x</p>")]⟩
        = chunkedDivOpen "f" "f_main" ++ "<p>x</p>" ++ "</div>" ++ moverScript "f_main" := by
  constructor
  · intro n p name sr c
    unfold flushChunkedItem
    rw [if_pos rfl, if_neg]
    · intro hand
      exact chunkedContentKey_ne_main n p hand.1
  · rfl

/-! ### Claim C3 -/

/-- Configured fragment with one CSS asset whose fetch yields `css2`. -/
def c3Cfg : IExposeFragment :=
  ⟨⟨"/", false, false, false⟩, [⟨"a", RESOURCE_TYPE.CSS, some "css2"⟩]⟩

/-- C3: the claim states buildStyleSheets skips a configless fragment and
still bundles the CSS of every configured fragment.  In the source the
`return` inside the `for` loop aborts the whole method, so with a
configless fragment iterated before a configured one no CSS at all is
collected (first conjunct evaluates the code as written, second evaluates
the spec's skip semantics on the same input). -/
theorem C3_configless_fragment_aborts_stylesheets :
    collectStyleSheets [none, some c3Cfg] [] = none
    ∧ collectStyleSheetsSkip [none, some c3Cfg] [] = some ["css2"] := by
  exact ⟨rfl, rfl⟩

/-! ### Claim C8 -/

/-- C8: the upstream query built by getContent never contains a reserved
key, always carries `__renderMode`, and forwards every other attribute of
the `main` occurrence unchanged. -/
theorem C8_reserved_keys_never_forwarded (attribs : String → Option String) :
    (∀ k ∈ reservedQueryKeys, buildContentQuery attribs k = none)
    ∧ buildContentQuery attribs "__renderMode" = some FRAGMENT_RENDER_MODES_STREAM
    ∧ (∀ k, k ∉ reservedQueryKeys → k ≠ "__renderMode" →
        buildContentQuery attribs k = attribs k) := by
  refine ⟨fun k hk => ?_, ?_, fun k h1 h2 => ?_⟩
  · simp only [buildContentQuery, if_pos hk]
  · have hmem : ("__renderMode" ∈ reservedQueryKeys) = False := by
      simp only [reservedQueryKeys]
      decide
    simp only [buildContentQuery, hmem, if_false, if_true]
  · simp only [buildContentQuery, if_neg h1, if_neg h2]

/-- Example attribute bag of a `main` occurrence: a custom attribute plus
the reserved `primary` attribute. -/
def c8Attribs : String → Option String :=
  fun k => if k = "color" then some "red" else if k = "primary" then some "" else none

/-- Witness for C8 at a concrete attribute bag. -/
theorem C8_witness :
    buildContentQuery c8Attribs "primary" = none
    ∧ buildContentQuery c8Attribs "__renderMode" = some FRAGMENT_RENDER_MODES_STREAM
    ∧ buildContentQuery c8Attribs "color" = some "red" := by
  refine ⟨(C8_reserved_keys_never_forwarded c8Attribs).1 "primary" (by decide), 
    (C8_reserved_keys_never_forwarded c8Attribs).2.1, ?_⟩
  rw [(C8_reserved_keys_never_forwarded c8Attribs).2.2 "color" (by decide) (by decide)]
  rfl

/-! ### Claim C10 -/

/-- C10: without a config neither getContent nor getPlaceholder issues an
upstream fetch — getContent resolves to status 500 with an empty html map
and getPlaceholder to the empty string — and getPlaceholder also returns
the empty string without fetching when the placeholder flag is off. -/
theorem C10_missing_config_no_fetch :
    (∀ fc : Except Unit RawFetchResponse, getContent none fc = (⟨500, []⟩, false))
    ∧ (∀ fp : Except Unit String, getPlaceholder none fp = ("", false))
    ∧ (∀ (cfg : IExposeFragment) (fp : Except Unit String),
        cfg.render.placeholder = false → getPlaceholder (some cfg) fp = ("", false)) := by
  refine ⟨fun fc => rfl, fun fp => rfl, fun cfg fp h => ?_⟩
  simp only [getPlaceholder, h, if_true]

/-- Witness for C10 at concrete fetch results and a concrete config. -/
theorem C10_witness :
    getContent none (Except.error ()) = (⟨500, []⟩, false)
    ∧ getPlaceholder none (Except.ok "ph") = ("", false)
    ∧ getPlaceholder (some ⟨⟨"/", false, false, false⟩, []⟩) (Except.ok "ph") = ("", false) :=
  ⟨C10_missing_config_no_fetch.1 _, C10_missing_config_no_fetch.2.1 _,
    C10_missing_config_no_fetch.2.2 _ _ rfl⟩

/-! ### Claim C4 -/

/-- Headers survive the replaceWaitedFragments fold only as the initial
empty object or the `undefined` read off a primary fragment's content, so
the handler's header-copy loop never sets anything. -/
theorem replaceWaited_fold_headers_empty (dbg : Bool) (ws : List WaitedReplacement)
    (acc : IWaitedResponseFirstFlush) (h : acc.headers = some [] ∨ acc.headers = none) :
    appliedHeaders (ws.foldl (replaceWaitedStep dbg) acc).headers = [] := by
  induction ws generalizing acc with
  | nil =>
    rcases h with h | h <;> simp [appliedHeaders, h]
  | cons w rest ih =>
    rw [List.foldl_cons]
    apply ih
    by_cases hp : w.primary = true
    · right
      simp [replaceWaitedStep, hp, IFragmentContentResponse.headers]
    · rcases h with h | h
      · left
        simp [replaceWaitedStep, hp, h]
      · right
        simp [replaceWaitedStep, hp, h]

/-- Waited replace set of a primary fragment whose upstream fetch answers
with status 301 and a `location` response header. -/
def c4Waited : WaitedReplacement :=
  ⟨"f", true, some ⟨⟨"/", false, false, false⟩, []⟩,
    Except.ok ⟨301, [("location", "/elsewhere")], []⟩,
    [⟨REPLACE_ITEM_TYPE.CONTENT, "KEY", "main"⟩]⟩

/-- C4: the claim states that response status AND headers equal those of
the primary fragment's upstream fetch.  The status half holds, but
getContent (fragment.ts) returns an object with only `status` and `html`,
so the `fragmentContent.headers` read in replaceWaitedFragments is always
`undefined` and the handler applies no headers at all.  First conjunct:
for every input the set of headers applied to the response is empty.
Remaining conjuncts evaluate the code at the failing input: the upstream
fetch carried status 301 with a `location` header; the status is
propagated but the applied headers are empty rather than the upstream's
nonempty header list. -/
theorem C4_upstream_headers_never_applied :
    (∀ (dbg : Bool) (ws : List WaitedReplacement) (t : String),
      appliedHeaders (replaceWaitedFragments dbg ws t).headers = [])
    ∧ (replaceWaitedFragments false [c4Waited] "pre KEY post").statusCode = 301
    ∧ appliedHeaders (replaceWaitedFragments false [c4Waited] "pre KEY post").headers = []
    ∧ (match c4Waited.fetchResult with
        | Except.ok r => r.headers
        | Except.error _ => []) = [("location", "/elsewhere")] := by
  refine ⟨fun dbg ws t => ?_, rfl, rfl, rfl⟩
  exact replaceWaited_fold_headers_empty dbg ws ⟨t, 200, some []⟩ (Or.inl rfl)

/-! ### Claim C2 -/

/-- The per-fragment substitution step of replaceWaitedFragments coincides
with its fully-literal counterpart: the CONTENT substitutions already use a
function replacer, and the MODEL_SCRIPT substitution — the one plain
string replacement in the loop — always inserts the empty string, because
the content object returned by getContent carries no `model` field,
so its dollar-pattern expansion can never fire. -/
theorem replaceWaitedStep_eq_literal (dbg : Bool) :
    replaceWaitedStep dbg = replaceWaitedStepLiteral dbg := by
  funext acc w
  unfold replaceWaitedStep replaceWaitedStepLiteral
  cases hfind : w.replaceItems.find? (fun i => i.type = REPLACE_ITEM_TYPE.MODEL_SCRIPT) with
  | none => rfl
  | some mi =>
    simp only [hfind, IFragmentContentResponse.model, fragmentModelScript,
      strReplaceJS_empty_rep]

/-- Waited replace set whose fragment content contains dollar patterns:
the upstream html for `main` is the literal text `$&`. -/
def c2Waited : WaitedReplacement :=
  ⟨"f", false, some ⟨⟨"/", false, false, false⟩, []⟩,
    Except.ok ⟨200, [], [("main", "$&")]⟩,
    [⟨REPLACE_ITEM_TYPE.CONTENT, "KEY", "main"⟩]⟩

/-- C2: sentinel substitution in replaceWaitedFragments is observably
literal.  First conjunct: on every input the function as written (function
replacer for CONTENT, plain string replacement for MODEL_SCRIPT) produces
exactly the same document as the fully-literal substitution, so the
mechanism never expands regex back-references.  Second conjunct evaluates
a run whose upstream content is the back-reference pattern `$&`: the
substituted document contains it verbatim. -/
theorem C2_sentinel_substitution_is_literal :
    (∀ (dbg : Bool) (ws : List WaitedReplacement) (t : String),
      replaceWaitedFragments dbg ws t = replaceWaitedFragmentsLiteral dbg ws t)
    ∧ (replaceWaitedFragments false [c2Waited] "pre KEY post").template = "pre $& post" := by
  constructor
  · intro dbg ws t
    unfold replaceWaitedFragments replaceWaitedFragmentsLiteral
    rw [replaceWaitedStep_eq_literal]
  · rfl

/-! ### Claim C6 -/

/-- Substring containment on strings (infix of the character list). -/
def strInfix (a b : String) : Prop := a.data <:+: b.data

/-- Accumulator-appending folds keep the initial accumulator as a prefix. -/
theorem foldl_append_keeps_init {α : Type} (f : α → String) (l : List α) (init : String) :
    init.data <+: (l.foldl (fun acc y => acc ++ f y) init).data := by
  induction l generalizing init with
  | nil => exact List.prefix_refl _
  | cons y ys ih =>
    rw [List.foldl_cons]
    refine List.IsPrefix.trans ?_ (ih (init ++ f y))
    rw [String.data_append]
    exact List.prefix_append _ _

/-- Every piece appended by an accumulator-appending fold is an infix of
the fold's result. -/
theorem foldl_append_mem_within {α : Type} (f : α → String) {x : α} {l : List α}
    (hx : x ∈ l) : ∀ init : String,
    (f x).data <:+: (l.foldl (fun acc y => acc ++ f y) init).data := by
  induction hx with
  | head as =>
    intro init
    rw [List.foldl_cons]
    refine List.IsInfix.trans ?_ (foldl_append_keeps_init f as (init ++ f x)).isInfix
    rw [String.data_append]
    exact (List.suffix_append _ _).isInfix
  | tail b hmem ih =>
    intro init
    rw [List.foldl_cons]
    exact ih (init ++ f b)

/-- The piece flushed for any replace item of a chunked replacement is
contained in the full flush output. -/
theorem flush_contains_piece (js : List IReplaceAsset) (cr : ChunkedReplacement)
    (dbg : Bool) (c : IFragmentContentResponse) (item : IReplaceItem)
    (hmem : item ∈ cr.replaceItems) :
    strInfix (flushChunkedItem cr.name (selfReplacingOf cr.config) c item)
      (flush js cr dbg c) := by
  unfold strInfix flush
  rw [String.data_append, String.data_append]
  refine List.IsInfix.trans
    (foldl_append_mem_within (fun it => flushChunkedItem cr.name (selfReplacingOf cr.config) c it) hmem _)
    ((List.prefix_append _ _).trans (List.prefix_append _ _)).isInfix

/-- C6: an upstream content fetch that times out or fails in transport is
caught and resolved — never rejected — to status 500 with an empty html
map (first conjunct); with an empty html map every waited CONTENT sentinel
is substituted with the literal CONTENT_NOT_FOUND_ERROR text (second
conjunct, the exact text injected by replaceWaitedFragments for each
CONTENT item); and every CHUNKED_CONTENT division streamed for such a
fragment carries the literal CONTENT_NOT_FOUND_ERROR text (third
conjunct). -/
theorem C6_fetch_failure_resolves_to_error_text :
    (∀ cfg : IExposeFragment, getContent (some cfg) (Except.error ()) = (⟨500, []⟩, true))
    ∧ (∀ item : IReplaceItem, contentInjectText ⟨500, []⟩ item = CONTENT_NOT_FOUND_ERROR)
    ∧ (∀ (js : List IReplaceAsset) (cr : ChunkedReplacement) (dbg : Bool)
        (item : IReplaceItem), item ∈ cr.replaceItems →
        item.type = REPLACE_ITEM_TYPE.CHUNKED_CONTENT →
        strInfix (chunkedDivOpen cr.name item.key ++ CONTENT_NOT_FOUND_ERROR ++ "</div>")
          (flush js cr dbg ⟨500, []⟩)) := by
  refine ⟨fun cfg => rfl, fun item => rfl, fun js cr dbg item hmem htype => ?_⟩
  have hpiece := flush_contains_piece js cr dbg ⟨500, []⟩ item hmem
  have hshape : flushChunkedItem cr.name (selfReplacingOf cr.config) ⟨500, []⟩ item
      = chunkedDivOpen cr.name item.key ++ CONTENT_NOT_FOUND_ERROR ++ "</div>"
        ++ (if item.key = "main" ∧ selfReplacingOf cr.config = true then ""
            else moverScript item.key) := by
    unfold flushChunkedItem
    rw [if_pos htype]
    rfl
  rw [hshape] at hpiece
  unfold strInfix at hpiece ⊢
  rw [String.data_append] at hpiece
  exact List.IsInfix.trans (List.prefix_append _ _).isInfix hpiece

/-- Witness for C6's hypothesised conjunct at a concrete chunked fragment. -/
theorem C6_witness :
    strInfix (chunkedDivOpen "f" "f_main" ++ CONTENT_NOT_FOUND_ERROR ++ "</div>")
      (flush [] ⟨"f", none, [⟨REPLACE_ITEM_TYPE.CHUNKED_CONTENT, "f_main", "main"⟩]⟩
        false ⟨500, []⟩) :=
  C6_fetch_failure_resolves_to_error_text.2.2 []
    ⟨"f", none, [⟨REPLACE_ITEM_TYPE.CHUNKED_CONTENT, "f_main", "main"⟩]⟩ false
    ⟨REPLACE_ITEM_TYPE.CHUNKED_CONTENT, "f_main", "main"⟩ (List.mem_singleton.mpr rfl) rfl

/-! ### Claims C5 and C9: lemmas on the fragments map -/

/-- Unfolding lemma. -/
theorem lookupFlags_nil (k : String) : lookupFlags [] k = none := rfl

/-- Unfolding lemma. -/
theorem lookupFlags_cons (k0 : String) (v0 : FragFlags) (rest : List (String × FragFlags))
    (k : String) :
    lookupFlags ((k0, v0) :: rest) k = if k0 = k then some v0 else lookupFlags rest k := rfl

/-- Lookup after an update. -/
theorem lookupFlags_setFrag (l : List (String × FragFlags)) (k k' : String) (v : FragFlags) :
    lookupFlags (setFrag l k v) k' = if k = k' then some v else lookupFlags l k' := by
  induction l with
  | nil =>
    unfold setFrag
    rw [lookupFlags_cons, lookupFlags_nil]
  | cons kv rest ih =>
    obtain ⟨k0, v0⟩ := kv
    unfold setFrag
    by_cases h0 : k0 = k
    · subst h0
      rw [if_pos rfl, lookupFlags_cons, lookupFlags_cons]
      by_cases h1 : k0 = k' <;> simp [h1]
    · rw [if_neg h0, lookupFlags_cons, lookupFlags_cons]
      by_cases h1 : k0 = k'
      · subst h1
        rw [if_pos rfl, if_pos rfl, if_neg (fun h => h0 h.symm)]
      · rw [if_neg h1, if_neg h1, ih]

/-- Reading after an update. -/
theorem getFrag_setFrag (l : List (String × FragFlags)) (k k' : String) (v : FragFlags) :
    getFrag (setFrag l k v) k' = if k = k' then v else getFrag l k' := by
  unfold getFrag
  rw [lookupFlags_setFrag]
  by_cases h : k = k' <;> simp [h]

/-- Lookup distributes over append. -/
theorem lookupFlags_append (l1 l2 : List (String × FragFlags)) (k : String) :
    lookupFlags (l1 ++ l2) k
      = match lookupFlags l1 k with
        | some v => some v
        | none => lookupFlags l2 k := by
  induction l1 with
  | nil => rfl
  | cons kv rest ih =>
    obtain ⟨k0, v0⟩ := kv
    rw [List.cons_append, lookupFlags_cons, lookupFlags_cons]
    by_cases h : k0 = k
    · rw [if_pos h, if_pos h]
    · rw [if_neg h, if_neg h, ih]

/-- Creating the descriptor of a newly seen name does not change any read:
the appended entry carries exactly the default flags. -/
theorem getFrag_ensureFrag (l : List (String × FragFlags)) (k k' : String) :
    getFrag (ensureFrag l k) k' = getFrag l k' := by
  unfold ensureFrag
  by_cases h : (lookupFlags l k).isSome
  · rw [if_pos h]
  · rw [if_neg h]
    unfold getFrag
    rw [lookupFlags_append]
    cases hl : lookupFlags l k' with
    | some v => rfl
    | none =>
      rw [lookupFlags_cons, lookupFlags_nil]
      by_cases h2 : k = k' <;> simp [h2]

/-- Case analysis on one getDependencies iteration. -/
theorem depStep_shape (st : DepState) (el : FragEl) :
    (el.hasPrimary = true ∧ (getFrag st.frags el.name).primary = false ∧
      ((st.primaryName ≠ none ∧ st.primaryName ≠ some el.name ∧
          depStep st el = Except.error DepError.MULTIPLE_PRIMARY_FRAGMENTS)
        ∨ ((st.primaryName = none ∨ st.primaryName = some el.name) ∧
            depStep st el = Except.ok
              ⟨setFrag (ensureFrag st.frags el.name) el.name ⟨true, true⟩, some el.name⟩)))
    ∨ ((el.hasPrimary = false ∨ (getFrag st.frags el.name).primary = true) ∧
        depStep st el = Except.ok
          ⟨(if (getFrag st.frags el.name).shouldWait = false then
              setFrag (ensureFrag st.frags el.name) el.name
                ⟨(getFrag st.frags el.name).primary, el.hasShouldwait || el.parentIsHead⟩
            else ensureFrag st.frags el.name), st.primaryName⟩) := by
  simp only [depStep, getFrag_ensureFrag]
  by_cases hcond : (getFrag st.frags el.name).primary = false ∧ el.hasPrimary = true
  · left
    refine ⟨hcond.2, hcond.1, ?_⟩
    rw [if_pos hcond]
    by_cases hp : st.primaryName ≠ none ∧ st.primaryName ≠ some el.name
    · exact Or.inl ⟨hp.1, hp.2, by rw [if_pos hp]⟩
    · refine Or.inr ⟨?_, by rw [if_neg hp]⟩
      rcases Decidable.em (st.primaryName = none) with h | h
      · exact Or.inl h
      · right
        by_contra h2
        exact hp ⟨h, h2⟩
  · right
    refine ⟨?_, by rw [if_neg hcond]⟩
    by_cases hep : el.hasPrimary = true
    · right
      by_contra h2
      exact hcond ⟨by simpa using h2, hep⟩
    · exact Or.inl (by simpa using hep)

/-- State predicate: no fragment element so far carried `primary`. -/
def NoPrim (st : DepState) : Prop :=
  st.primaryName = none ∧ ∀ k, (getFrag st.frags k).primary = false

/-- State predicate: `n` is the unique name that claimed `primary`. -/
def OnePrim (st : DepState) (n : String) : Prop :=
  st.primaryName = some n ∧ ∀ k, (getFrag st.frags k).primary = true → k = n

/-- A second distinct name claiming `primary` makes the iteration throw. -/
theorem depStep_error_of_onePrim (st : DepState) (el : FragEl) (n : String)
    (h : OnePrim st n) (hp : el.hasPrimary = true) (hn : el.name ≠ n) :
    depStep st el = Except.error DepError.MULTIPLE_PRIMARY_FRAGMENTS := by
  have hcur : (getFrag st.frags el.name).primary = false := by
    by_contra h2
    exact hn (h.2 el.name (by simpa using h2))
  rcases depStep_shape st el with ⟨_, _, hin⟩ | ⟨hor, _⟩
  · rcases hin with ⟨_, _, he⟩ | ⟨hpn, _⟩
    · exact he
    · rcases hpn with h0 | h0
      · rw [h.1] at h0; cases h0
      · rw [h.1] at h0
        injection h0 with h0
        exact absurd h0.symm hn
  · rcases hor with h0 | h0
    · rw [hp] at h0; cases h0
    · rw [hcur] at h0; cases h0

/-- An element that does not claim a second name keeps the unique-primary
state. -/
theorem depStep_ok_onePrim (st : DepState) (el : FragEl) (n : String)
    (h : OnePrim st n) (hcase : el.hasPrimary = false ∨ el.name = n) :
    ∃ st', depStep st el = Except.ok st' ∧ OnePrim st' n := by
  rcases depStep_shape st el with ⟨hp, hcur, hin⟩ | ⟨_, hok⟩
  · have hname : el.name = n := by
      rcases hcase with h0 | h0
      · rw [hp] at h0; cases h0
      · exact h0
    rcases hin with ⟨_, hns, _⟩ | ⟨_, hok⟩
    · exfalso
      exact hns (by rw [h.1, hname])
    · refine ⟨_, hok, by rw [hname], fun k hk => ?_⟩
      rw [getFrag_setFrag] at hk
      by_cases hkk : el.name = k
      · rw [← hkk]; exact hname
      · rw [if_neg hkk, getFrag_ensureFrag] at hk
        exact h.2 k hk
  · refine ⟨_, hok, h.1, fun k hk => ?_⟩
    by_cases hsw : (getFrag st.frags el.name).shouldWait = false
    · rw [if_pos hsw, getFrag_setFrag] at hk
      by_cases hkk : el.name = k
      · rw [if_pos hkk] at hk
        rw [← hkk]
        exact h.2 el.name hk
      · rw [if_neg hkk, getFrag_ensureFrag] at hk
        exact h.2 k hk
    · rw [if_neg hsw, getFrag_ensureFrag] at hk
      exact h.2 k hk

/-- From a primary-free state, an iteration succeeds; it establishes the
unique-primary state exactly when the element carries `primary`. -/
theorem depStep_ok_noPrim (st : DepState) (el : FragEl) (h : NoPrim st) :
    ∃ st', depStep st el = Except.ok st'
      ∧ (el.hasPrimary = true → OnePrim st' el.name)
      ∧ (el.hasPrimary = false → NoPrim st') := by
  rcases depStep_shape st el with ⟨hp, _, hin⟩ | ⟨hor, hok⟩
  · rcases hin with ⟨hne, _, _⟩ | ⟨_, hok⟩
    · exact absurd h.1 hne
    · refine ⟨_, hok, fun _ => ⟨rfl, fun k hk => ?_⟩, fun h0 => by rw [hp] at h0; cases h0⟩
      rw [getFrag_setFrag] at hk
      by_cases hkk : el.name = k
      · exact hkk.symm
      · rw [if_neg hkk, getFrag_ensureFrag] at hk
        exact absurd hk (by rw [h.2 k]; decide)
  · refine ⟨_, hok, fun h0 => ?_, fun _ => ⟨h.1, fun k => ?_⟩⟩
    · exfalso
      rcases hor with h1 | h1
      · rw [h0] at h1; cases h1
      · rw [h.2 el.name] at h1; cases h1
    · by_cases hsw : (getFrag st.frags el.name).shouldWait = false
      · rw [if_pos hsw, getFrag_setFrag]
        by_cases hkk : el.name = k
        · rw [if_pos hkk]
          exact h.2 el.name
        · rw [if_neg hkk, getFrag_ensureFrag]
          exact h.2 k
      · rw [if_neg hsw, getFrag_ensureFrag]
        exact h.2 k

/-- Once a name owns `primary`, a later element with `primary` and a
different name makes the whole reduce throw. -/
theorem getDepsFrom_error_onePrim (els : List FragEl) : ∀ (st : DepState) (n : String),
    OnePrim st n → (∃ e ∈ els, e.hasPrimary = true ∧ e.name ≠ n) →
    getDependenciesFrom st els = Except.error DepError.MULTIPLE_PRIMARY_FRAGMENTS := by
  induction els with
  | nil =>
    rintro st n _ ⟨e, he, _⟩
    cases he
  | cons el rest ih =>
    rintro st n hop ⟨e, he, hp, hn⟩
    by_cases hel : el.hasPrimary = true ∧ el.name ≠ n
    · unfold getDependenciesFrom
      rw [depStep_error_of_onePrim st el n hop hel.1 hel.2]
    · have hcase : el.hasPrimary = false ∨ el.name = n := by
        rcases Decidable.em (el.hasPrimary = true) with h1 | h1
        · right
          by_contra h2
          exact hel ⟨h1, h2⟩
        · left
          simpa using h1
      obtain ⟨st', hok, hop'⟩ := depStep_ok_onePrim st el n hop hcase
      unfold getDependenciesFrom
      rw [hok]
      apply ih st' n hop'
      refine ⟨e, ?_, hp, hn⟩
      rcases List.mem_cons.mp he with h | h
      · subst h
        exact absurd ⟨hp, hn⟩ hel
      · exact h

/-- Two distinct names claiming `primary` make the reduce throw, from any
primary-free state. -/
theorem getDepsFrom_error_noPrim (els : List FragEl) : ∀ (st : DepState),
    NoPrim st →
    (∃ e1 ∈ els, ∃ e2 ∈ els, e1.hasPrimary = true ∧ e2.hasPrimary = true
      ∧ e1.name ≠ e2.name) →
    getDependenciesFrom st els = Except.error DepError.MULTIPLE_PRIMARY_FRAGMENTS := by
  induction els with
  | nil =>
    rintro st _ ⟨e1, he1, _⟩
    cases he1
  | cons el rest ih =>
    rintro st hnp ⟨e1, he1, e2, he2, hp1, hp2, hne⟩
    obtain ⟨st', hok, himp1, himp2⟩ := depStep_ok_noPrim st el hnp
    unfold getDependenciesFrom
    rw [hok]
    by_cases hep : el.hasPrimary = true
    · apply getDepsFrom_error_onePrim rest st' el.name (himp1 hep)
      rcases List.mem_cons.mp he1 with h1 | h1
      · subst h1
        rcases List.mem_cons.mp he2 with h2 | h2
        · rw [h2] at hne
          exact absurd rfl hne
        · exact ⟨e2, h2, hp2, fun h => hne h.symm⟩
      · rcases List.mem_cons.mp he2 with h2 | h2
        · subst h2
          exact ⟨e1, h1, hp1, hne⟩
        · rcases Decidable.em (e1.name = el.name) with hq | hq
          · refine ⟨e2, h2, hp2, ?_⟩
            rw [← hq]
            exact fun h => hne h.symm
          · exact ⟨e1, h1, hp1, hq⟩
    · apply ih st' (himp2 (by simpa using hep))
      have m1 : e1 ∈ rest := by
        rcases List.mem_cons.mp he1 with h | h
        · subst h
          exact absurd hp1 hep
        · exact h
      have m2 : e2 ∈ rest := by
        rcases List.mem_cons.mp he2 with h | h
        · subst h
          exact absurd hp2 hep
        · exact h
      exact ⟨e1, m1, e2, m2, hp1, hp2, hne⟩

/-- When every element claiming `primary` has the same name, the reduce
succeeds. -/
theorem getDepsFrom_ok_of_shared_name (els : List FragEl) : ∀ (st : DepState) (n : String),
    (∀ e ∈ els, e.hasPrimary = true → e.name = n) →
    (st.primaryName = none ∨ st.primaryName = some n) →
    ∃ st', getDependenciesFrom st els = Except.ok st' := by
  induction els with
  | nil => exact fun st n _ _ => ⟨st, rfl⟩
  | cons el rest ih =>
    intro st n hall hpn
    have hstep : ∃ st', depStep st el = Except.ok st'
        ∧ (st'.primaryName = none ∨ st'.primaryName = some n) := by
      rcases depStep_shape st el with ⟨hp, _, hin⟩ | ⟨_, hok⟩
      · have hname : el.name = n := hall el (List.mem_cons_self el rest) hp
        rcases hin with ⟨hne, hns, _⟩ | ⟨_, hok⟩
        · exfalso
          rcases hpn with h | h
          · exact hne h
          · exact hns (by rw [h, hname])
        · exact ⟨_, hok, Or.inr (by rw [hname])⟩
      · exact ⟨_, hok, hpn⟩
    obtain ⟨st', hok, hpn'⟩ := hstep
    obtain ⟨stf, hf⟩ := ih st' n (fun e he hp => hall e (List.mem_cons_of_mem el he) hp) hpn'
    refine ⟨stf, ?_⟩
    unfold getDependenciesFrom
    rw [hok]
    exact hf

/-- C5: getDependencies throws MULTIPLE_PRIMARY_FRAGMENTS exactly when two
fragment elements with distinct names both carry the `primary` attribute;
repeated `primary` occurrences of one name never throw. -/
theorem C5_multiple_primary_iff (els : List FragEl) :
    getDependencies els = Except.error DepError.MULTIPLE_PRIMARY_FRAGMENTS
    ↔ ∃ e1 ∈ els, ∃ e2 ∈ els, e1.hasPrimary = true ∧ e2.hasPrimary = true
        ∧ e1.name ≠ e2.name := by
  constructor
  · intro h
    by_contra hne
    push_neg at hne
    rcases Decidable.em (∃ e ∈ els, e.hasPrimary = true) with ⟨e0, he0, hp0⟩ | hno
    · obtain ⟨st', hok⟩ := getDepsFrom_ok_of_shared_name els ⟨[], none⟩ e0.name
        (fun e he hp => hne e he e0 he0 hp hp0) (Or.inl rfl)
      unfold getDependencies at h
      rw [hok] at h
      cases h
    · obtain ⟨st', hok⟩ := getDepsFrom_ok_of_shared_name els ⟨[], none⟩ ""
        (fun e he hp => absurd ⟨e, he, hp⟩ hno) (Or.inl rfl)
      unfold getDependencies at h
      rw [hok] at h
      cases h
  · rintro ⟨e1, he1, e2, he2, hp1, hp2, hne⟩
    exact getDepsFrom_error_noPrim els ⟨[], none⟩ ⟨rfl, fun k => rfl⟩
      ⟨e1, he1, e2, he2, hp1, hp2, hne⟩

/-- Witness for C5: two distinct names both carrying `primary` throw. -/
theorem C5_witness :
    getDependencies [⟨"a", "g", true, false, false⟩, ⟨"b", "g", true, false, false⟩]
      = Except.error DepError.MULTIPLE_PRIMARY_FRAGMENTS :=
  (C5_multiple_primary_iff _).mpr
    ⟨⟨"a", "g", true, false, false⟩, List.mem_cons_self _ _,
      ⟨"b", "g", true, false, false⟩, List.mem_cons_of_mem _ (List.mem_cons_self _ _),
      rfl, rfl, by decide⟩

/-- A shouldWait flag already set is never reset by a later iteration. -/
theorem depStep_mono_shouldWait (st : DepState) (el : FragEl) (st' : DepState) (k : String)
    (hok : depStep st el = Except.ok st')
    (hw : (getFrag st.frags k).shouldWait = true) :
    (getFrag st'.frags k).shouldWait = true := by
  rcases depStep_shape st el with ⟨_, _, hin⟩ | ⟨_, hok2⟩
  · rcases hin with ⟨_, _, he⟩ | ⟨_, hok2⟩
    · rw [he] at hok
      cases hok
    · rw [hok2] at hok
      injection hok with hok
      subst hok
      rw [getFrag_setFrag]
      by_cases hkk : el.name = k
      · rw [if_pos hkk]
      · rw [if_neg hkk, getFrag_ensureFrag]
        exact hw
  · rw [hok2] at hok
    injection hok with hok
    subst hok
    by_cases hsw : (getFrag st.frags el.name).shouldWait = false
    · rw [if_pos hsw, getFrag_setFrag]
      by_cases hkk : el.name = k
      · exfalso
        rw [hkk] at hsw
        rw [hw] at hsw
        cases hsw
      · rw [if_neg hkk, getFrag_ensureFrag]
        exact hw
    · rw [if_neg hsw, getFrag_ensureFrag]
      exact hw

/-- Every primary descriptor has shouldWait, preserved across iterations. -/
theorem depStep_pw (st : DepState) (el : FragEl) (st' : DepState)
    (hok : depStep st el = Except.ok st')
    (hpw : ∀ k, (getFrag st.frags k).primary = true → (getFrag st.frags k).shouldWait = true) :
    ∀ k, (getFrag st'.frags k).primary = true → (getFrag st'.frags k).shouldWait = true := by
  intro k
  rcases depStep_shape st el with ⟨_, _, hin⟩ | ⟨_, hok2⟩
  · rcases hin with ⟨_, _, he⟩ | ⟨_, hok2⟩
    · rw [he] at hok
      cases hok
    · rw [hok2] at hok
      injection hok with hok
      subst hok
      rw [getFrag_setFrag]
      by_cases hkk : el.name = k
      · rw [if_pos hkk]
        intro _
        rfl
      · rw [if_neg hkk, getFrag_ensureFrag]
        exact hpw k
  · rw [hok2] at hok
    injection hok with hok
    subst hok
    by_cases hsw : (getFrag st.frags el.name).shouldWait = false
    · rw [if_pos hsw, getFrag_setFrag]
      by_cases hkk : el.name = k
      · rw [if_pos hkk]
        intro hprim
        exfalso
        rw [hpw el.name hprim] at hsw
        cases hsw
      · rw [if_neg hkk, getFrag_ensureFrag]
        exact hpw k
    · rw [if_neg hsw, getFrag_ensureFrag]
      exact hpw k

/-- After processing an element that is primary, carries `shouldwait` or
sits inside `<head>`, its fragment's shouldWait flag is set. -/
theorem depStep_sets_el (st : DepState) (el : FragEl) (st' : DepState)
    (hok : depStep st el = Except.ok st')
    (hpw : ∀ k, (getFrag st.frags k).primary = true → (getFrag st.frags k).shouldWait = true)
    (hflag : (el.hasPrimary || el.hasShouldwait || el.parentIsHead) = true) :
    (getFrag st'.frags el.name).shouldWait = true := by
  rcases depStep_shape st el with ⟨_, _, hin⟩ | ⟨hor, hok2⟩
  · rcases hin with ⟨_, _, he⟩ | ⟨_, hok2⟩
    · rw [he] at hok
      cases hok
    · rw [hok2] at hok
      injection hok with hok
      subst hok
      rw [getFrag_setFrag, if_pos rfl]
  · rw [hok2] at hok
    injection hok with hok
    subst hok
    by_cases hsw : (getFrag st.frags el.name).shouldWait = false
    · rw [if_pos hsw, getFrag_setFrag, if_pos rfl]
      cases hep : el.hasPrimary with
      | true =>
        exfalso
        rcases hor with h1 | h1
        · rw [hep] at h1
          cases h1
        · rw [hpw el.name h1] at hsw
          cases hsw
      | false =>
        rw [hep] at hflag
        simpa using hflag
    · rw [if_neg hsw, getFrag_ensureFrag]
      simpa using hsw

/-- Monotonicity of shouldWait across a whole successful reduce. -/
theorem getDepsFrom_mono_shouldWait (els : List FragEl) : ∀ (st stf : DepState) (k : String),
    getDependenciesFrom st els = Except.ok stf →
    (getFrag st.frags k).shouldWait = true →
    (getFrag stf.frags k).shouldWait = true := by
  induction els with
  | nil =>
    intro st stf k hrun hw
    injection hrun with hrun
    subst hrun
    exact hw
  | cons el rest ih =>
    intro st stf k hrun hw
    unfold getDependenciesFrom at hrun
    cases hd : depStep st el with
    | error err =>
      rw [hd] at hrun
      cases hrun
    | ok st1 =>
      rw [hd] at hrun
      exact ih st1 stf k hrun (depStep_mono_shouldWait st el st1 k hd hw)

/-- Primary-implies-shouldWait across a whole successful reduce. -/
theorem getDepsFrom_pw (els : List FragEl) : ∀ (st stf : DepState),
    getDependenciesFrom st els = Except.ok stf →
    (∀ k, (getFrag st.frags k).primary = true → (getFrag st.frags k).shouldWait = true) →
    ∀ k, (getFrag stf.frags k).primary = true → (getFrag stf.frags k).shouldWait = true := by
  induction els with
  | nil =>
    intro st stf hrun hpw
    injection hrun with hrun
    subst hrun
    exact hpw
  | cons el rest ih =>
    intro st stf hrun hpw
    unfold getDependenciesFrom at hrun
    cases hd : depStep st el with
    | error err =>
      rw [hd] at hrun
      cases hrun
    | ok st1 =>
      rw [hd] at hrun
      exact ih st1 stf hrun (depStep_pw st el st1 hd hpw)

/-- Over a successful reduce, every qualifying occurrence leaves its
fragment's shouldWait flag set in the final state. -/
theorem getDepsFrom_shouldWait_set (els : List FragEl) : ∀ (st stf : DepState),
    getDependenciesFrom st els = Except.ok stf →
    (∀ k, (getFrag st.frags k).primary = true → (getFrag st.frags k).shouldWait = true) →
    ∀ e ∈ els, (e.hasPrimary || e.hasShouldwait || e.parentIsHead) = true →
    (getFrag stf.frags e.name).shouldWait = true := by
  induction els with
  | nil =>
    intro st stf _ _ e he
    cases he
  | cons el rest ih =>
    intro st stf hrun hpw e he hflag
    unfold getDependenciesFrom at hrun
    cases hd : depStep st el with
    | error err =>
      rw [hd] at hrun
      cases hrun
    | ok st1 =>
      rw [hd] at hrun
      rcases List.mem_cons.mp he with h | h
      · subst h
        exact getDepsFrom_mono_shouldWait rest st1 stf e.name hrun
          (depStep_sets_el st e st1 hd hpw hflag)
      · exact ih st1 stf hrun (depStep_pw st el st1 hd hpw) e h hflag

/-- C9: after a successful getDependencies run, a fragment's shouldWait
flag is set whenever one of its occurrences was primary, carried
`shouldwait` or sat inside `<head>` — a later plain occurrence never
resets it — and every primary fragment has shouldWait. -/
theorem C9_shouldWait_set_and_never_reset (els : List FragEl) (stf : DepState)
    (hok : getDependencies els = Except.ok stf) :
    (∀ e ∈ els, (e.hasPrimary || e.hasShouldwait || e.parentIsHead) = true →
      (getFrag stf.frags e.name).shouldWait = true)
    ∧ (∀ k, (getFrag stf.frags k).primary = true →
        (getFrag stf.frags k).shouldWait = true) := by
  have hpw0 : ∀ k, (getFrag (⟨[], none⟩ : DepState).frags k).primary = true →
      (getFrag (⟨[], none⟩ : DepState).frags k).shouldWait = true := by
    intro k h
    cases h
  exact ⟨getDepsFrom_shouldWait_set els ⟨[], none⟩ stf hok hpw0,
    getDepsFrom_pw els ⟨[], none⟩ stf hok hpw0⟩

/-- Witness for C9: one occurrence with a `shouldwait` attribute sets the
flag in the final state. -/
theorem C9_witness :
    (getFrag [("a", ⟨false, true⟩)] "a").shouldWait = true :=
  (C9_shouldWait_set_and_never_reset [⟨"a", "g", false, true, false⟩]
      ⟨[("a", ⟨false, true⟩)], none⟩ rfl).1
    ⟨"a", "g", false, true, false⟩ (List.mem_singleton.mpr rfl) rfl

/-! ### Claim C7 -/

/-- Invariant of the Mode B stream: once closed no fetch is pending, and
the write log is exactly the first-flush shell, then one chunk per
completed fetch in completion order, then — when closed — the closing
chunk; the completed and pending fetches together are a permutation of all
chunked fetches. -/
def ModeBInv (chunkOut : Nat → String) (closingStr shell : String) (idx : List Nat)
    (st : ModeBState) : Prop :=
  (st.closed = true → st.pending = [])
  ∧ ∃ done : List Nat, (done ++ st.pending).Perm idx
      ∧ st.writes = StreamWrite.firstFlush shell ::
          (done.map (fun i => StreamWrite.chunk i (chunkOut i))
            ++ (if st.closed then [StreamWrite.closing closingStr] else []))

/-- The invariant holds right after the first flush. -/
theorem modeBInv_init (chunkOut : Nat → String) (closingStr shell : String)
    (idx : List Nat) :
    ModeBInv chunkOut closingStr shell idx (modeBInit idx shell) := by
  refine ⟨fun h => ?_, [], ?_, rfl⟩
  · cases h
  · simp [modeBInit]

/-- Every Mode B transition preserves the invariant. -/
theorem modeBInv_step (chunkOut : Nat → String) (closingStr shell : String)
    (idx : List Nat) (st st' : ModeBState)
    (hstep : ModeBStep chunkOut closingStr st st')
    (hinv : ModeBInv chunkOut closingStr shell idx st) :
    ModeBInv chunkOut closingStr shell idx st' := by
  obtain ⟨hcl, done, hperm, hw⟩ := hinv
  cases hstep with
  | complete i _ hi hc =>
    refine ⟨fun h => ?_, done ++ [i], ?_, ?_⟩
    · cases h
    · have h1 : (done ++ [i]) ++ st.pending.erase i = done ++ (i :: st.pending.erase i) := by
        rw [List.append_assoc]
        rfl
      rw [h1]
      exact (List.Perm.append_left done (List.perm_cons_erase hi).symm).trans hperm
    · simp only [hw, hc]
      simp [List.map_append]
  | close _ hp hc =>
    refine ⟨fun _ => rfl, done, ?_, ?_⟩
    · rw [hp] at hperm
      simpa using hperm
    · simp only [hw, hc, hp]
      simp

/-- The invariant holds in every reachable Mode B state. -/
theorem modeB_reach_inv (chunkOut : Nat → String) (closingStr shell : String)
    (idx : List Nat) (st : ModeBState)
    (h : ModeBReach chunkOut closingStr (modeBInit idx shell) st) :
    ModeBInv chunkOut closingStr shell idx st := by
  induction h with
  | refl => exact modeBInv_init chunkOut closingStr shell idx
  | tail hsteps hstep ih => exact modeBInv_step chunkOut closingStr shell idx _ _ hstep ih

/-- C7: in Mode B, under every interleaving of chunked fetch completions,
a closed stream has written exactly the first-flush shell first, then one
chunk per chunked fetch in completion order — a permutation of all of them
— and the closing chunk strictly last, after every chunked fetch
completed; in particular the shell is the head write and every chunk write
lies strictly before the closing write. -/
theorem C7_modeB_write_ordering (chunkOut : Nat → String) (closingStr shell : String)
    (idx : List Nat) (st : ModeBState)
    (hr : ModeBReach chunkOut closingStr (modeBInit idx shell) st)
    (hc : st.closed = true) :
    ∃ done : List Nat, done.Perm idx
      ∧ st.writes = StreamWrite.firstFlush shell ::
          (done.map (fun i => StreamWrite.chunk i (chunkOut i))
            ++ [StreamWrite.closing closingStr])
      ∧ st.writes.head? = some (StreamWrite.firstFlush shell)
      ∧ ∀ i ∈ idx, StreamWrite.chunk i (chunkOut i) ∈ st.writes.dropLast := by
  obtain ⟨hcl, done, hperm, hw⟩ := modeB_reach_inv chunkOut closingStr shell idx st hr
  rw [hcl hc] at hperm
  rw [hc] at hw
  simp only [List.append_nil] at hperm
  refine ⟨done, hperm, by simpa using hw, by rw [hw]; rfl, fun i hi => ?_⟩
  have hdone : i ∈ done := hperm.mem_iff.mpr hi
  rw [hw]
  rw [show (if true = true then [StreamWrite.closing closingStr] else [])
      = [StreamWrite.closing closingStr] from rfl]
  rw [show StreamWrite.firstFlush shell ::
      (List.map (fun j => StreamWrite.chunk j (chunkOut j)) done
        ++ [StreamWrite.closing closingStr])
      = (StreamWrite.firstFlush shell
          :: List.map (fun j => StreamWrite.chunk j (chunkOut j)) done)
        ++ [StreamWrite.closing closingStr] from rfl]
  rw [List.dropLast_concat]
  exact List.mem_cons_of_mem _ (List.mem_map.mpr ⟨i, hdone, rfl⟩)

/-- Concrete chunk body used in the C7 witness: the flush output of one
chunked fragment. -/
def c7Out : Nat → String := fun _ =>
  flush [] ⟨"f", none, [⟨REPLACE_ITEM_TYPE.CHUNKED_CONTENT, "f_main", "main"⟩]⟩ false
    ⟨200, [("main", "<p>x</p>")]⟩

/-- Closing chunk used in the C7 witness. -/
def c7Closing : String := "</body></html>"

/-- Witness run, after the single chunked fetch completed. -/
def c7St1 : ModeBState :=
  ⟨[], [StreamWrite.firstFlush "SHELL", StreamWrite.chunk 0 (c7Out 0)], false⟩

/-- Witness run, after the stream closed. -/
def c7St2 : ModeBState :=
  ⟨[], [StreamWrite.firstFlush "SHELL", StreamWrite.chunk 0 (c7Out 0),
    StreamWrite.closing c7Closing], true⟩

/-- First transition of the witness run: the chunked fetch completes. -/
theorem c7_step1 : ModeBStep c7Out c7Closing (modeBInit [0] "SHELL") c7St1 :=
  @ModeBStep.complete c7Out c7Closing 0 (modeBInit [0] "SHELL")
    (List.mem_singleton.mpr rfl) rfl

/-- Second transition of the witness run: the stream closes. -/
theorem c7_step2 : ModeBStep c7Out c7Closing c7St1 c7St2 :=
  @ModeBStep.close c7Out c7Closing c7St1 rfl rfl

/-- Witness for C7 at a concrete one-fragment run. -/
theorem C7_witness :
    ∃ done : List Nat, done.Perm [0]
      ∧ c7St2.writes = StreamWrite.firstFlush "SHELL" ::
          (done.map (fun i => StreamWrite.chunk i (c7Out i)) ++ [StreamWrite.closing c7Closing])
      ∧ c7St2.writes.head? = some (StreamWrite.firstFlush "SHELL")
      ∧ ∀ i ∈ [0], StreamWrite.chunk i (c7Out i) ∈ c7St2.writes.dropLast :=
  C7_modeB_write_ordering c7Out c7Closing "SHELL" [0] c7St2
    (Relation.ReflTransGen.tail (Relation.ReflTransGen.single c7_step1) c7_step2) rfl
